import Mathlib

set_option maxRecDepth 8000

/-!
Verification of the VESC Express communication-core test utilities and of the
protocol behaviour described by the repository's specification.

Byte buffers are modelled as `List Nat` (each element one byte), C `int`
arguments as `Int`, and machine-word truncation as explicit `% 2 ^ w`.
A nullable C pointer argument is modelled as an `Option`.
-/

namespace VescExpress

/-! ## Protocol constants (src/tests/framework/vesc_test_utils.h) -/

def VESC_PACKET_START_BYTE : Nat := 0x02
def VESC_PACKET_END_BYTE : Nat := 0x03
def VESC_MAX_PACKET_SIZE : Nat := 512
def VESC_COMM_FORWARD_CAN : Nat := 34
def VESC_CAN_PACKET_SET_DUTY : Nat := 0
def VESC_CAN_PACKET_SET_CURRENT : Nat := 1
def VESC_CAN_PACKET_SET_RPM : Nat := 3
def VESC_CAN_PACKET_FILL_RX_BUFFER : Nat := 5
def VESC_CAN_PACKET_PROCESS_RX_BUFFER : Nat := 6
def VESC_CAN_PACKET_PROCESS_SHORT_BUFFER : Nat := 7
def VESC_CAN_PACKET_STATUS : Nat := 9

/-! ## CRC engine (src/tests/framework/vesc_test_utils.c, lines 58-73, and the
identical static `crc16` in src/test_protocol_bridge.c, lines 41-54) -/

/-- One round of the inner `for (j = 0; j < 8; j++)` loop of the CRC
computation: shift the 16-bit register left once, xoring in the polynomial
0x1021 when the bit shifted out was set.  The `% 65536` is the truncation to
`uint16_t` performed by the C assignment. -/
def crcRound (crc : Nat) : Nat :=
  if crc &&& 0x8000 ≠ 0 then ((crc <<< 1) ^^^ 0x1021) % 65536
  else (crc <<< 1) % 65536

/-- The body of the outer loop: `crc ^= (uint16_t)data[i] << 8;` followed by
eight shift rounds. -/
def crcByte (crc b : Nat) : Nat :=
  crcRound^[8] ((crc ^^^ (b <<< 8)) % 65536)

/-- The function `vesc_test_calculate_crc16` from
src/tests/framework/vesc_test_utils.c.  `data = none` models a NULL `data`
pointer; otherwise the list holds the bytes of the buffer and `length` is the
C `int` length argument (the loop reads the first `length` bytes). -/
def vesc_test_calculate_crc16 (data : Option (List Nat)) (length : Int) : Nat :=
  match data with
  | none => 0
  | some bs => if length ≤ 0 then 0 else (bs.take length.toNat).foldl crcByte 0

/-- The static function `crc16` from src/test_protocol_bridge.c.  It has no
NULL guard; a non-positive `len` simply gives zero loop iterations. -/
def crc16 (data : List Nat) (len : Int) : Nat :=
  (data.take len.toNat).foldl crcByte 0

/-- The `k` low-order bits of `b`, most significant first
(helper for the specification-side reference CRC). -/
def bitsMSB : Nat → Nat → List Nat
  | 0, _ => []
  | k + 1, b => (b >>> k) % 2 :: bitsMSB k b

/-- One message bit of the reference CRC-CCITT: the feedback bit is the xor of
the register's most significant bit with the incoming message bit; on feedback
the register is shifted and the polynomial 0x1021 is xored in. -/
def crcBit (c bit : Nat) : Nat :=
  if ((c >>> 15) + bit) % 2 = 1 then ((c <<< 1) ^^^ 0x1021) % 65536
  else (c <<< 1) % 65536

/-- Reference CRC from the specification's words (section 4.1): CRC-CCITT,
16-bit, polynomial 0x1021, initial value 0, MSB-first, no reflection,
processing the message one bit at a time. -/
def crcCCITTRef (msg : List Nat) : Nat :=
  ((msg.map (bitsMSB 8)).flatten).foldl crcBit 0

/-! ## Bit-manipulation helper lemmas -/

theorem natBit_val (x k : Nat) : (x >>> k) % 2 = if x.testBit k then 1 else 0 := by
  have h := Nat.testBit_to_div_mod (x := x) (i := k)
  rw [Nat.shiftRight_eq_div_pow]
  rcases h' : x.testBit k with _ | _
  · rw [h'] at h
    replace h := h.symm
    simp only [decide_eq_false_iff_not] at h
    have h0 : x / 2 ^ k % 2 = 0 := by omega
    simpa using h0
  · rw [h'] at h
    replace h := of_decide_eq_true h.symm
    simpa using h

theorem mod_two_pow_xor (x y n : Nat) :
    (x ^^^ y) % 2 ^ n = (x % 2 ^ n) ^^^ (y % 2 ^ n) := by
  apply Nat.eq_of_testBit_eq
  intro i
  simp only [Nat.testBit_mod_two_pow, Nat.testBit_xor]
  rcases Nat.lt_or_ge i n with h | h
  · simp [h]
  · simp [Nat.not_lt.mpr h]

theorem shiftLeft_one_xor (x y : Nat) :
    (x ^^^ y) <<< 1 = (x <<< 1) ^^^ (y <<< 1) := by
  apply Nat.eq_of_testBit_eq
  intro i
  simp only [Nat.testBit_shiftLeft, Nat.testBit_xor]
  rcases Nat.lt_or_ge i 1 with h | h
  · simp [show ¬ (1 : Nat) ≤ i by omega]
  · simp [h]

theorem xor_disjoint_add {x : Nat} (y n : Nat) (hx : x < 2 ^ n) :
    (y <<< n) ^^^ x = 2 ^ n * y + x := by
  apply Nat.eq_of_testBit_eq
  intro i
  rcases Nat.lt_or_ge i n with h | h
  · simp only [Nat.testBit_xor, Nat.testBit_shiftLeft,
      Nat.testBit_mul_pow_two_add _ hx, if_pos h, show ¬ n ≤ i by omega]
    simp
  · have hxi : x.testBit i = false := Nat.testBit_lt_two_pow (by
      calc x < 2 ^ n := hx
        _ ≤ 2 ^ i := Nat.pow_le_pow_right (by omega) h)
    simp only [Nat.testBit_xor, Nat.testBit_shiftLeft,
      Nat.testBit_mul_pow_two_add _ hx, if_neg (by omega : ¬ i < n), hxi, h]
    simp

theorem or_disjoint_add {x : Nat} (y n : Nat) (hx : x < 2 ^ n) :
    (y <<< n) ||| x = 2 ^ n * y + x := by
  apply Nat.eq_of_testBit_eq
  intro i
  rcases Nat.lt_or_ge i n with h | h
  · simp only [Nat.testBit_or, Nat.testBit_shiftLeft,
      Nat.testBit_mul_pow_two_add _ hx, if_pos h, show ¬ n ≤ i by omega]
    simp
  · have hxi : x.testBit i = false := Nat.testBit_lt_two_pow (by
      calc x < 2 ^ n := hx
        _ ≤ 2 ^ i := Nat.pow_le_pow_right (by omega) h)
    simp only [Nat.testBit_or, Nat.testBit_shiftLeft,
      Nat.testBit_mul_pow_two_add _ hx, if_neg (by omega : ¬ i < n), hxi, h]
    simp

theorem and_top_bit (c : Nat) : (c &&& 0x8000 ≠ 0) ↔ c.testBit 15 = true := by
  have h : c &&& 0x8000 = (c.testBit 15).toNat * 2 ^ 15 := by
    have := Nat.and_two_pow c 15
    norm_num at this ⊢
    exact this
  rw [h]
  rcases hb : c.testBit 15 with _ | _ <;> simp

theorem crcRound_lt (x : Nat) : crcRound x < 65536 := by
  unfold crcRound
  split <;> exact Nat.mod_lt _ (by norm_num)

theorem mod65536_xor (x y : Nat) : (x ^^^ y) % 65536 = (x % 65536) ^^^ (y % 65536) := by
  have h := mod_two_pow_xor x y 16
  norm_num at h
  exact h

theorem crcBit_lt (c bit : Nat) : crcBit c bit < 65536 := by
  unfold crcBit
  split <;> exact Nat.mod_lt _ (by norm_num)

/-! ## The byte-at-a-time loop agrees with the bit-at-a-time reference CRC -/

theorem bitsMSB_mod (k : Nat) : ∀ (m b : Nat), k ≤ m → bitsMSB k (b % 2 ^ m) = bitsMSB k b := by
  induction k with
  | zero => intro m b _; rfl
  | succ k ih =>
    intro m b hm
    unfold bitsMSB
    rw [ih m b (by omega)]
    have hhead : ((b % 2 ^ m) >>> k) % 2 = (b >>> k) % 2 := by
      rw [natBit_val, natBit_val, Nat.testBit_mod_two_pow]
      simp [show k < m by omega]
    rw [hhead]

theorem crcRound_xor_low {v : Nat} (u : Nat) (hv : v < 2 ^ 15) :
    crcRound (u ^^^ v) = crcRound u ^^^ (v <<< 1) := by
  have hv16 : v <<< 1 < 65536 := by
    rw [Nat.shiftLeft_eq]
    omega
  have hbit : (u ^^^ v).testBit 15 = u.testBit 15 := by
    simp [Nat.testBit_xor, Nat.testBit_lt_two_pow hv]
  have hcond : ((u ^^^ v) &&& 0x8000 ≠ 0) ↔ (u &&& 0x8000 ≠ 0) := by
    rw [and_top_bit, and_top_bit, hbit]
  unfold crcRound
  rcases Decidable.em (u &&& 0x8000 ≠ 0) with h | h
  · rw [if_pos (hcond.mpr h), if_pos h, shiftLeft_one_xor]
    rw [show (u <<< 1 ^^^ v <<< 1) ^^^ 0x1021 = (u <<< 1 ^^^ 0x1021) ^^^ v <<< 1 by
      rw [Nat.xor_assoc, Nat.xor_assoc, Nat.xor_comm (v <<< 1)]]
    rw [mod65536_xor, Nat.mod_eq_of_lt hv16]
  · rw [if_neg (fun hc => h (hcond.mp hc)), if_neg h, shiftLeft_one_xor]
    rw [mod65536_xor, Nat.mod_eq_of_lt hv16]

theorem shiftLeft_xor_top (c : Nat) :
    ((c ^^^ 32768) <<< 1) % 65536 = (c <<< 1) % 65536 := by
  rw [shiftLeft_one_xor]
  have h1 : (32768 : Nat) <<< 1 = 65536 := by norm_num [Nat.shiftLeft_eq]
  rw [h1, mod65536_xor]
  simp

theorem testBit15_of_lt {c : Nat} (hc : c < 65536) :
    c >>> 15 = if c.testBit 15 then 1 else 0 := by
  have hle : c >>> 15 ≤ 1 := by
    rw [Nat.shiftRight_eq_div_pow]
    norm_num
    omega
  have h := natBit_val c 15
  rcases ht : c.testBit 15 with _ | _ <;> rw [ht] at h <;> simp at h ⊢ <;> omega

theorem crcBit_eq_round {c : Nat} (bit : Nat) (hc : c < 65536) (hb : bit ≤ 1) :
    crcRound (c ^^^ (bit <<< 15)) = crcBit c bit := by
  have hshift := testBit15_of_lt hc
  rcases Nat.le_one_iff_eq_zero_or_eq_one.mp hb with rfl | rfl
  · rw [Nat.zero_shiftLeft, Nat.xor_zero]
    unfold crcRound crcBit
    rcases ht : c.testBit 15 with _ | _
    · rw [ht] at hshift
      simp at hshift
      rw [if_neg (by rw [and_top_bit, ht]; simp), if_neg (by omega)]
    · rw [ht] at hshift
      simp at hshift
      rw [if_pos (by rw [and_top_bit, ht]), if_pos (by omega)]
  · have harg : (1 : Nat) <<< 15 = 32768 := by norm_num [Nat.shiftLeft_eq]
    rw [harg]
    have h15 : Nat.testBit 32768 15 = true := by decide
    have hbit : (c ^^^ 32768).testBit 15 = !(c.testBit 15) := by
      simp [Nat.testBit_xor, h15]
    unfold crcRound crcBit
    rcases ht : c.testBit 15 with _ | _
    · rw [ht] at hshift hbit
      simp at hshift
      rw [if_pos (by rw [and_top_bit, hbit]; simp), if_pos (by omega)]
      rw [mod65536_xor, shiftLeft_xor_top, ← mod65536_xor]
    · rw [ht] at hshift hbit
      simp at hshift
      rw [if_neg (by rw [and_top_bit, hbit]; simp), if_neg (by omega)]
      exact shiftLeft_xor_top c

theorem crcRound_iter_eq_bits : ∀ (k : Nat), k ≤ 16 →
    ∀ (c b : Nat), c < 65536 → b < 2 ^ k →
      crcRound^[k] (c ^^^ (b <<< (16 - k))) = (bitsMSB k b).foldl crcBit c := by
  intro k
  induction k with
  | zero =>
    intro _ c b hc hb
    have hb0 : b = 0 := by omega
    subst hb0
    simp [bitsMSB]
  | succ k ih =>
    intro hk c b hc hb
    have hk15 : k ≤ 15 := by omega
    -- split the leading bit from the rest of the field
    set bitk := (b >>> k) % 2 with hbitk
    set rest := b % 2 ^ k with hrest
    have hbit1 : bitk ≤ 1 := by
      have := Nat.mod_lt (b >>> k) (y := 2) (by norm_num)
      omega
    have hrlt : rest < 2 ^ k := Nat.mod_lt b (Nat.pos_pow_of_pos k (by norm_num))
    have hdiv : b / 2 ^ k < 2 := by
      apply Nat.div_lt_of_lt_mul
      calc b < 2 ^ (k + 1) := hb
        _ = 2 ^ k * 2 := by ring
    have hbitk' : bitk = b / 2 ^ k := by
      rw [hbitk, Nat.shiftRight_eq_div_pow]
      exact Nat.mod_eq_of_lt hdiv
    have hsplit : b = 2 ^ k * bitk + rest := by
      rw [hbitk', hrest]
      exact (Nat.div_add_mod b (2 ^ k)).symm
    have hvlt : rest <<< (15 - k) < 2 ^ 15 := by
      rw [Nat.shiftLeft_eq]
      calc rest * 2 ^ (15 - k) < 2 ^ k * 2 ^ (15 - k) :=
            (Nat.mul_lt_mul_right (Nat.pos_pow_of_pos _ (by norm_num))).mpr hrlt
        _ = 2 ^ 15 := by rw [← Nat.pow_add]; congr 1; omega
    have hargsplit : b <<< (16 - (k + 1)) = (bitk <<< 15) ^^^ (rest <<< (15 - k)) := by
      rw [xor_disjoint_add _ _ hvlt]
      rw [Nat.shiftLeft_eq, Nat.shiftLeft_eq]
      rw [show 16 - (k + 1) = 15 - k by omega]
      calc b * 2 ^ (15 - k) = (2 ^ k * bitk + rest) * 2 ^ (15 - k) := by rw [← hsplit]
        _ = bitk * (2 ^ k * 2 ^ (15 - k)) + rest * 2 ^ (15 - k) := by ring
        _ = 2 ^ 15 * bitk + rest * 2 ^ (15 - k) := by
              rw [← Nat.pow_add, show k + (15 - k) = 15 by omega]; ring
    rw [Function.iterate_succ_apply]
    rw [hargsplit, ← Nat.xor_assoc]
    rw [crcRound_xor_low (c ^^^ bitk <<< 15) hvlt]
    rw [crcBit_eq_round bitk hc hbit1]
    have hshift2 : (rest <<< (15 - k)) <<< 1 = rest <<< (16 - k) := by
      rw [← Nat.shiftLeft_add]
      congr 1
      omega
    rw [hshift2]
    have hih := ih (by omega) (crcBit c bitk) rest (crcBit_lt c bitk) hrlt
    rw [hih]
    have hunfold : bitsMSB (k + 1) b = bitk :: bitsMSB k b := rfl
    rw [hunfold, List.foldl_cons]
    have hrw : bitsMSB k rest = bitsMSB k b := bitsMSB_mod k k b (le_refl k)
    rw [hrw]

theorem crcByte_lt (c b : Nat) : crcByte c b < 65536 := by
  unfold crcByte
  rw [show (8 : Nat) = 7 + 1 from rfl, Function.iterate_succ_apply']
  exact crcRound_lt _

theorem crcByte_eq_bits {c b : Nat} (hc : c < 65536) (hb : b < 256) :
    crcByte c b = (bitsMSB 8 b).foldl crcBit c := by
  unfold crcByte
  have hx : c ^^^ (b <<< 8) < 65536 := by
    have h1 : b <<< 8 < 65536 := by
      rw [Nat.shiftLeft_eq]
      omega
    have h2 := Nat.xor_lt_two_pow (n := 16)
      (show c < 2 ^ 16 by norm_num; exact hc)
      (show b <<< 8 < 2 ^ 16 by norm_num; exact h1)
    norm_num at h2
    exact h2
  rw [Nat.mod_eq_of_lt hx]
  have hb8 : b < 2 ^ 8 := by
    have h28 : (2 : Nat) ^ 8 = 256 := by norm_num
    omega
  have h := crcRound_iter_eq_bits 8 (by norm_num) c b hc hb8
  simpa using h

theorem foldl_crcByte_eq_ref (bs : List Nat) : ∀ (c : Nat), c < 65536 →
    (∀ x ∈ bs, x < 256) →
    bs.foldl crcByte c = ((bs.map (bitsMSB 8)).flatten).foldl crcBit c := by
  induction bs with
  | nil => intro c _ _; rfl
  | cons b t ih =>
    intro c hc hall
    simp only [List.foldl_cons, List.map_cons, List.flatten_cons, List.foldl_append]
    rw [← crcByte_eq_bits hc (hall b (by simp))]
    exact ih (crcByte c b) (crcByte_lt c b) (fun x hx => hall x (by simp [hx]))

theorem foldl_crcByte_lt (bs : List Nat) : ∀ c, c < 65536 → bs.foldl crcByte c < 65536 := by
  induction bs with
  | nil => intro c hc; exact hc
  | cons b t ih => intro c _; exact ih (crcByte c b) (crcByte_lt c b)

/-- C1: for every byte array, `vesc_test_calculate_crc16` called with the
array's length (and the identical static `crc16` of test_protocol_bridge.c)
computes the reference CRC-CCITT checksum: 16 bits, polynomial 0x1021, initial
value 0, MSB-first, no reflection.  Determinism across repeated calls is
immediate because the embedded functions are pure.  The witness below also
checks the reference value 0x31C3 of the standard test message "123456789". -/
theorem crc16_matches_ccitt_reference (bs : List Nat) (hb : ∀ x ∈ bs, x < 256) :
    vesc_test_calculate_crc16 (some bs) bs.length = crcCCITTRef bs ∧
    crc16 bs bs.length = crcCCITTRef bs := by
  have key : bs.foldl crcByte 0 = crcCCITTRef bs := foldl_crcByte_eq_ref bs 0 (by norm_num) hb
  have htonat : ((bs.length : Int)).toNat = bs.length := Int.toNat_ofNat bs.length
  have hsome : vesc_test_calculate_crc16 (some bs) bs.length =
      if (bs.length : Int) ≤ 0 then 0
      else (bs.take ((bs.length : Int)).toNat).foldl crcByte 0 := rfl
  constructor
  · rw [hsome]
    rcases hbs : bs with _ | ⟨x, t⟩
    · subst hbs
      simp [crcCCITTRef, List.foldl]
    · subst hbs
      rw [if_neg (by simp only [List.length_cons]; omega)]
      rw [htonat, List.take_length]
      exact key
  · unfold crc16
    rw [htonat, List.take_length]
    exact key

/-- Witness for C1: the claim theorem applied to the standard CRC-CCITT test
message "123456789" (bytes 0x31..0x39), whose reference checksum is 0x31C3. -/
theorem crc16_matches_ccitt_reference_witness :
    (vesc_test_calculate_crc16 (some [49, 50, 51, 52, 53, 54, 55, 56, 57]) 9 =
        crcCCITTRef [49, 50, 51, 52, 53, 54, 55, 56, 57] ∧
      crc16 [49, 50, 51, 52, 53, 54, 55, 56, 57] 9 =
        crcCCITTRef [49, 50, 51, 52, 53, 54, 55, 56, 57]) ∧
    crcCCITTRef [49, 50, 51, 52, 53, 54, 55, 56, 57] = 0x31C3 := by
  constructor
  · exact crc16_matches_ccitt_reference [49, 50, 51, 52, 53, 54, 55, 56, 57] (by decide)
  · decide

/-- Unfolding of `vesc_test_calculate_crc16` on a non-NULL buffer. -/
theorem calculate_crc16_some_eq (bs : List Nat) (len : Int) :
    vesc_test_calculate_crc16 (some bs) len =
      if len ≤ 0 then 0 else (bs.take len.toNat).foldl crcByte 0 := rfl

/-- C10: `vesc_test_calculate_crc16` is total at its public interface: a NULL
data pointer or a non-positive length returns 0 without touching the buffer,
and for a positive length the result depends only on the first `length` bytes
of the buffer (it reads exactly those bytes and no others). -/
theorem calculate_crc16_total :
    (∀ len : Int, vesc_test_calculate_crc16 none len = 0) ∧
    (∀ (bs : List Nat) (len : Int), len ≤ 0 →
      vesc_test_calculate_crc16 (some bs) len = 0) ∧
    (∀ (bs cs : List Nat) (len : Int), 0 < len →
      bs.take len.toNat = cs.take len.toNat →
      vesc_test_calculate_crc16 (some bs) len = vesc_test_calculate_crc16 (some cs) len) := by
  refine ⟨fun len => rfl, fun bs len h => ?_, fun bs cs len hpos h => ?_⟩
  · rw [calculate_crc16_some_eq, if_pos h]
  · rw [calculate_crc16_some_eq, calculate_crc16_some_eq,
      if_neg (by omega), if_neg (by omega), h]

/-- Witness for C10 at concrete inputs: NULL pointer, zero length, and two
buffers agreeing on their first three bytes. -/
theorem calculate_crc16_total_witness :
    vesc_test_calculate_crc16 none 5 = 0 ∧
    vesc_test_calculate_crc16 (some [1, 2, 3]) 0 = 0 ∧
    vesc_test_calculate_crc16 (some [1, 2, 3, 9]) 3 =
      vesc_test_calculate_crc16 (some [1, 2, 3, 7]) 3 :=
  ⟨calculate_crc16_total.1 5,
   calculate_crc16_total.2.1 [1, 2, 3] 0 (by decide),
   calculate_crc16_total.2.2 [1, 2, 3, 9] [1, 2, 3, 7] 3 (by decide) (by decide)⟩

/-! ## UART packet construction and validation
(src/tests/framework/vesc_test_utils.c) -/

/-- The struct `vesc_packet_t` from vesc_test_utils.h; `length` is the
`uint8_t` length field and `total_size` the C `int` total size. -/
structure vesc_packet_t where
  start_byte : Nat
  length : Nat
  payload : List Nat
  crc : Nat
  end_byte : Nat
  total_size : Int

/-- `vesc_test_validate_packet_structure` (lines 40-53): framing bytes plus
the consistency check `total_size == length + 5`; a NULL pointer is invalid.
The length-range check is commented out in the C source and hence absent. -/
def vesc_test_validate_packet_structure (packet : Option vesc_packet_t) : Bool :=
  match packet with
  | none => false
  | some p =>
    if p.start_byte ≠ VESC_PACKET_START_BYTE then false
    else if p.end_byte ≠ VESC_PACKET_END_BYTE then false
    else if p.total_size ≠ (p.length : Int) + 5 then false
    else true

/-- `vesc_test_create_uart_packet` (lines 78-111).  `data = none` models a
NULL data pointer, in which case the `memcpy` is skipped and the CRC loop
reads whatever already sits in the caller's buffer after the command byte;
those pre-existing bytes are modelled by `stale`.  The NULL-output-buffer
error path is not modelled (the claims quantify over non-null output
buffers only).  A `none` result models the -1 error return; on success the
written bytes are returned, the C return value being their count.  Note that
`payload_len` is a `uint8_t` in C, hence the `% 256`. -/
def vesc_test_create_uart_packet (command : Nat) (data : Option (List Nat))
    (data_len : Int) (stale : List Nat) : Option (List Nat) :=
  if data_len < 0 ∨ data_len > (VESC_MAX_PACKET_SIZE : Int) - 1 then none
  else
    let n := data_len.toNat
    let payload_len := (1 + n) % 256
    let copied : List Nat :=
      match data with
      | some d => if 0 < n then d.take n else []
      | none => []
    let crc := vesc_test_calculate_crc16 (some (command :: (copied ++ stale)))
      (payload_len : Int)
    some ([VESC_PACKET_START_BYTE, payload_len, command] ++ copied ++
      [(crc >>> 8) &&& 0xFF, crc &&& 0xFF, VESC_PACKET_END_BYTE])

/-- C2 (amended: the claim holds for data lengths up to 254; at 255 and above
the uint8_t payload-length field wraps, see the counterexample theorem):
for a data array of length `n ≤ 254`, `vesc_test_create_uart_packet` writes
`n + 6` bytes: start byte 0x02, length field `n + 1`, the command byte, the
`n` data bytes, the big-endian CRC16 of the `n + 1` payload bytes, and the
end byte 0x03; the matching `vesc_packet_t` passes
`vesc_test_validate_packet_structure` (total size = payload length + 5). -/
theorem create_uart_packet_spec (command : Nat) (d : List Nat) (n : Nat)
    (stale : List Nat) (hlen : d.length = n) (hn : n ≤ 254) :
    vesc_test_create_uart_packet command (some d) (n : Int) stale =
      some ([VESC_PACKET_START_BYTE, n + 1, command] ++ d ++
        [(vesc_test_calculate_crc16 (some (command :: d)) ((n + 1 : Nat) : Int) >>> 8) &&& 0xFF,
          vesc_test_calculate_crc16 (some (command :: d)) ((n + 1 : Nat) : Int) &&& 0xFF,
          VESC_PACKET_END_BYTE]) ∧
    ([VESC_PACKET_START_BYTE, n + 1, command] ++ d ++
        [(vesc_test_calculate_crc16 (some (command :: d)) ((n + 1 : Nat) : Int) >>> 8) &&& 0xFF,
          vesc_test_calculate_crc16 (some (command :: d)) ((n + 1 : Nat) : Int) &&& 0xFF,
          VESC_PACKET_END_BYTE]).length = n + 6 ∧
    vesc_test_validate_packet_structure (some
      ⟨VESC_PACKET_START_BYTE, n + 1, command :: d,
        vesc_test_calculate_crc16 (some (command :: d)) ((n + 1 : Nat) : Int),
        VESC_PACKET_END_BYTE, (n : Int) + 6⟩) = true := by
  have htonat : ((n : Int)).toNat = n := Int.toNat_ofNat n
  have hpl : (1 + n) % 256 = n + 1 := by omega
  have hcopied : (if 0 < n then List.take n d else []) = d := by
    rcases Nat.eq_zero_or_pos n with h0 | hpos
    · subst h0
      rw [if_neg (by omega)]
      exact (List.length_eq_zero.mp hlen).symm
    · rw [if_pos hpos, ← hlen, List.take_length]
  have hcrc : vesc_test_calculate_crc16 (some (command :: (d ++ stale))) ((n + 1 : Nat) : Int)
      = vesc_test_calculate_crc16 (some (command :: d)) ((n + 1 : Nat) : Int) := by
    rw [calculate_crc16_some_eq, calculate_crc16_some_eq]
    rw [if_neg (by omega), if_neg (by omega)]
    rw [Int.toNat_ofNat]
    rw [List.take_succ_cons, List.take_succ_cons, List.take_left' hlen, ← hlen,
      List.take_length]
  refine ⟨?_, ?_, ?_⟩
  · simp only [vesc_test_create_uart_packet]
    rw [if_neg (by simp only [VESC_MAX_PACKET_SIZE]; push_cast; omega)]
    rw [htonat, hpl, hcopied]
    rw [show ((n + 1 : Nat) : Int) = ((n + 1 : Nat) : Int) from rfl] at hcrc
    rw [show (↑(n + 1) : Int) = ((n + 1 : Nat) : Int) from rfl]
    rw [hcrc]
  · simp only [List.length_append, List.length_cons, List.length_nil, hlen]
    omega
  · simp only [vesc_test_validate_packet_structure, VESC_PACKET_START_BYTE,
      VESC_PACKET_END_BYTE]
    rw [if_neg (by omega), if_neg (by omega), if_neg (by push_cast; omega)]

/-- Witness for C2 at a concrete input: command 4, data [1, 2, 3]. -/
theorem create_uart_packet_spec_witness :
    vesc_test_create_uart_packet 4 (some [1, 2, 3]) ((3 : Nat) : Int) [] =
      some ([VESC_PACKET_START_BYTE, 3 + 1, 4] ++ [1, 2, 3] ++
        [(vesc_test_calculate_crc16 (some (4 :: [1, 2, 3])) ((3 + 1 : Nat) : Int) >>> 8) &&& 0xFF,
          vesc_test_calculate_crc16 (some (4 :: [1, 2, 3])) ((3 + 1 : Nat) : Int) &&& 0xFF,
          VESC_PACKET_END_BYTE]) ∧
    ([VESC_PACKET_START_BYTE, 3 + 1, 4] ++ [1, 2, 3] ++
        [(vesc_test_calculate_crc16 (some (4 :: [1, 2, 3])) ((3 + 1 : Nat) : Int) >>> 8) &&& 0xFF,
          vesc_test_calculate_crc16 (some (4 :: [1, 2, 3])) ((3 + 1 : Nat) : Int) &&& 0xFF,
          VESC_PACKET_END_BYTE]).length = 3 + 6 ∧
    vesc_test_validate_packet_structure (some
      ⟨VESC_PACKET_START_BYTE, 3 + 1, 4 :: [1, 2, 3],
        vesc_test_calculate_crc16 (some (4 :: [1, 2, 3])) ((3 + 1 : Nat) : Int),
        VESC_PACKET_END_BYTE, ((3 : Nat) : Int) + 6⟩) = true :=
  create_uart_packet_spec 4 [1, 2, 3] 3 [] rfl (by omega)

/-- Counterexample to C2 as stated: at data length 255 (within the claim's
range 0..511) the uint8_t payload-length field wraps to (1 + 255) % 256 = 0,
so byte 1 of the produced packet is 0, not the claimed 255 + 1. -/
theorem create_uart_packet_wraps_at_255 :
    ((vesc_test_create_uart_packet 0 (some (List.replicate 255 0)) 255 []).getD []).getD 1 0
      = 0 ∧
    ((vesc_test_create_uart_packet 0 (some (List.replicate 255 0)) 255 []).getD []).getD 1 0
      ≠ 255 + 1 := by
  constructor <;> decide

/-! ## CAN identifier construction and frame validation
(src/tests/framework/vesc_test_utils.c) -/

/-- `vesc_test_create_can_id` (lines 116-118):
`controller_id | ((uint32_t)packet_type << 8)`. -/
def vesc_test_create_can_id (controller_id : Nat) (packet_type : Nat) : Nat :=
  controller_id ||| (packet_type <<< 8)

/-- Arithmetic value of a created CAN identifier. -/
theorem create_can_id_val (a t : Nat) (ha : a < 256) :
    vesc_test_create_can_id a t = 2 ^ 8 * t + a := by
  unfold vesc_test_create_can_id
  rw [Nat.or_comm]
  exact or_disjoint_add t 8 (by norm_num; omega)

/-- C6: the bus frame identifier decodes losslessly: for every controller
address and packet type (each one byte), the low 8 bits of the identifier
recover the address, the next 8 bits recover the packet type, and the
identifier fits in 29 bits. -/
theorem create_can_id_roundtrip (a t : Nat) (ha : a < 256) (ht : t < 256) :
    vesc_test_create_can_id a t &&& 0xFF = a ∧
    (vesc_test_create_can_id a t >>> 8) &&& 0xFF = t ∧
    vesc_test_create_can_id a t < 2 ^ 29 := by
  have h28 : (2 : Nat) ^ 8 = 256 := by norm_num
  have hval := create_can_id_val a t ha
  have hFF : (0xFF : Nat) = 2 ^ 8 - 1 := by norm_num
  refine ⟨?_, ?_, ?_⟩
  · rw [hval, hFF, Nat.and_pow_two_sub_one_eq_mod]
    omega
  · rw [hval, hFF, Nat.shiftRight_eq_div_pow, Nat.and_pow_two_sub_one_eq_mod]
    omega
  · rw [hval]
    have h29 : (2 : Nat) ^ 29 = 536870912 := by norm_num
    omega

/-- Witness for C6: address 1, packet type 7 (PROCESS_SHORT_BUFFER). -/
theorem create_can_id_roundtrip_witness :
    vesc_test_create_can_id 1 7 &&& 0xFF = 1 ∧
    (vesc_test_create_can_id 1 7 >>> 8) &&& 0xFF = 7 ∧
    vesc_test_create_can_id 1 7 < 2 ^ 29 :=
  create_can_id_roundtrip 1 7 (by decide) (by decide)

/-- `vesc_test_validate_can_frame` (lines 123-149).  `data = none` models a
NULL data pointer; the data bytes themselves are never read, only the length
is checked. -/
def vesc_test_validate_can_frame (can_id : Nat) (data : Option (List Nat))
    (length : Int) : Bool :=
  match data with
  | none => false
  | some _ =>
    if length < 0 ∨ length > 8 then false
    else
      let controller_id := can_id &&& 0xFF
      let packet_type := (can_id >>> 8) &&& 0xFF
      if controller_id > 254 then false
      else if packet_type > 50 then false
      else if packet_type = VESC_CAN_PACKET_SET_DUTY ∨
          packet_type = VESC_CAN_PACKET_SET_CURRENT ∨
          packet_type = VESC_CAN_PACKET_SET_RPM then
        decide (length ≥ 4)
      else if packet_type = VESC_CAN_PACKET_STATUS then
        decide (length ≥ 6)
      else
        decide (length ≤ 8)

/-- Counterexample to C7 as stated: a frame addressed to the broadcast
address 255 with an accepted packet type (7, PROCESS_SHORT_BUFFER) and a
valid 1-byte data buffer is rejected by `vesc_test_validate_can_frame`,
while the identical frame addressed to 5 is accepted — the validator only
admits controller addresses 0..254. -/
theorem validate_can_frame_broadcast_cex :
    vesc_test_validate_can_frame
      (vesc_test_create_can_id 255 VESC_CAN_PACKET_PROCESS_SHORT_BUFFER) (some [0]) 1
      = false ∧
    vesc_test_validate_can_frame
      (vesc_test_create_can_id 5 VESC_CAN_PACKET_PROCESS_SHORT_BUFFER) (some [0]) 1
      = true := by
  constructor <;> decide

/-- C7 (amended): `vesc_test_validate_can_frame` rejects every frame whose
identifier carries the broadcast controller address 255, regardless of packet
type, data and length. -/
theorem validate_can_frame_rejects_broadcast (t : Nat) (data : Option (List Nat))
    (len : Int) :
    vesc_test_validate_can_frame (vesc_test_create_can_id 255 t) data len = false := by
  rcases data with _ | d
  · rfl
  · have hctrl : vesc_test_create_can_id 255 t &&& 0xFF = 255 := by
      unfold vesc_test_create_can_id
      rw [Nat.and_distrib_right]
      have h1 : (255 : Nat) &&& 0xFF = 255 := by decide
      have h2 : (t <<< 8) &&& 0xFF = 0 := by
        rw [show (0xFF : Nat) = 2 ^ 8 - 1 by norm_num, Nat.and_pow_two_sub_one_eq_mod,
          Nat.shiftLeft_eq]
        exact Nat.mul_mod_left t (2 ^ 8)
      rw [h1, h2]
      decide
    simp only [vesc_test_validate_can_frame]
    rcases Decidable.em (len < 0 ∨ len > 8) with hg | hg
    · rw [if_pos hg]
    · rw [if_neg hg, hctrl]
      simp

/-! ## Bridge packet validation (src/tests/framework/vesc_test_utils.c) -/

/-- `vesc_test_validate_bridge_packet` (lines 154-176).  `packet = none`
models a NULL pointer; list elements are the buffer bytes read with default 0
(the claims quantify over buffers holding at least `length` bytes). -/
def vesc_test_validate_bridge_packet (packet : Option (List Nat)) (length : Int)
    (expected_controller_id expected_command : Nat) : Bool :=
  match packet with
  | none => false
  | some p =>
    if length < 7 then false
    else if p.getD 0 0 ≠ VESC_PACKET_START_BYTE then false
    else if p.getD (length - 1).toNat 0 ≠ VESC_PACKET_END_BYTE then false
    else if (p.getD 1 0 : Int) ≠ length - 5 then false
    else if p.getD 2 0 ≠ VESC_COMM_FORWARD_CAN then false
    else if p.getD 3 0 ≠ expected_controller_id then false
    else if p.getD 4 0 ≠ expected_command then false
    else true

/-- C8: `vesc_test_validate_bridge_packet` accepts exactly the packets of the
framed bridge-command layout: length at least 7, start byte 0x02, end byte at
index length-1 equal to 0x03, length field equal to length - 5, bridge
command id 34 (COMM_FORWARD_CAN) at index 2, the expected target controller
address at index 3 and the expected inner command id at index 4. -/
theorem validate_bridge_packet_iff (p : List Nat) (length : Int) (id cmd : Nat) :
    vesc_test_validate_bridge_packet (some p) length id cmd = true ↔
      (7 ≤ length ∧ p.getD 0 0 = 0x02 ∧ p.getD (length - 1).toNat 0 = 0x03 ∧
        (p.getD 1 0 : Int) = length - 5 ∧ p.getD 2 0 = 34 ∧
        p.getD 3 0 = id ∧ p.getD 4 0 = cmd) := by
  simp only [vesc_test_validate_bridge_packet, VESC_PACKET_START_BYTE,
    VESC_PACKET_END_BYTE, VESC_COMM_FORWARD_CAN]
  split_ifs with h1 h2 h3 h4 h5 h6 h7 <;> simp_all

/-! ## CRC error injection (src/tests/framework/vesc_test_utils.c) -/

/-- `vesc_test_inject_crc_error` (lines 287-293): xors 0xFF into the two CRC
bytes, at indices size-3 and size-2.  `none` models a NULL packet pointer;
the returned list is the buffer after the call. -/
def vesc_test_inject_crc_error (packet : Option (List Nat)) (packet_size : Int) :
    Option (List Nat) :=
  match packet with
  | none => none
  | some p =>
    if packet_size < 7 then some p
    else
      let i := (packet_size - 3).toNat
      let j := (packet_size - 2).toNat
      let p1 := p.set i (p.getD i 0 ^^^ 0xFF)
      some (p1.set j (p1.getD j 0 ^^^ 0xFF))

theorem xor_255_ne (x : Nat) : x ^^^ 0xFF ≠ x := by
  intro h
  have hb := congrArg (fun y => Nat.testBit y 0) h
  have h255 : Nat.testBit 0xFF 0 = true := by decide
  simp only [Nat.testBit_xor, h255, Bool.xor_true] at hb
  exact (Bool.not_ne_self _) hb

/-- C9: for a non-null buffer holding at least `size ≥ 7` bytes,
`vesc_test_inject_crc_error` replaces exactly the two CRC bytes (indices
size-3 and size-2) by their bitwise complements (xor 0xFF) — both really
change — and leaves every other byte unchanged; a NULL buffer or a size
below 7 leaves everything untouched. -/
theorem inject_crc_error_frame :
    (∀ s : Int, vesc_test_inject_crc_error none s = none) ∧
    (∀ (p : List Nat) (s : Int), s < 7 →
      vesc_test_inject_crc_error (some p) s = some p) ∧
    (∀ (p : List Nat) (s : Int), 7 ≤ s → (s - 2).toNat < p.length →
      ∃ q, vesc_test_inject_crc_error (some p) s = some q ∧
        q.length = p.length ∧
        q.getD (s - 3).toNat 0 = p.getD (s - 3).toNat 0 ^^^ 0xFF ∧
        q.getD (s - 2).toNat 0 = p.getD (s - 2).toNat 0 ^^^ 0xFF ∧
        q.getD (s - 3).toNat 0 ≠ p.getD (s - 3).toNat 0 ∧
        q.getD (s - 2).toNat 0 ≠ p.getD (s - 2).toNat 0 ∧
        (∀ k, k ≠ (s - 3).toNat → k ≠ (s - 2).toNat → q.getD k 0 = p.getD k 0)) := by
  refine ⟨fun s => rfl, fun p s h => ?_, fun p s h7 hlt => ?_⟩
  · simp only [vesc_test_inject_crc_error]
    rw [if_pos h]
  · set i := (s - 3).toNat with hi
    set j := (s - 2).toNat with hj
    have hij : i ≠ j := by omega
    have hjlt : j < p.length := hlt
    have hilt : i < p.length := by omega
    set a := p.getD i 0 ^^^ 0xFF with ha
    set q1 := p.set i a with hq1
    set b := q1.getD j 0 ^^^ 0xFF with hb2
    set q := q1.set j b with hqdef
    have hrun : vesc_test_inject_crc_error (some p) s = some q := by
      simp only [vesc_test_inject_crc_error]
      rw [if_neg (by omega)]
    have hq1j : q1.getD j 0 = p.getD j 0 := by
      rw [hq1]
      simp only [List.getD_eq_getElem?_getD]
      rw [List.getElem?_set_ne hij]
    have hqi : q.getD i 0 = a := by
      rw [hqdef]
      simp only [List.getD_eq_getElem?_getD]
      rw [List.getElem?_set_ne (Ne.symm hij), hq1, List.getElem?_set_self hilt]
      rfl
    have hqj : q.getD j 0 = p.getD j 0 ^^^ 0xFF := by
      rw [hqdef]
      simp only [List.getD_eq_getElem?_getD]
      rw [List.getElem?_set_self (by rw [hq1]; simpa using hjlt)]
      have hsb : (some b).getD 0 = b := rfl
      rw [hsb, hb2, hq1j]
      simp only [List.getD_eq_getElem?_getD]
    have hother : ∀ k, k ≠ i → k ≠ j → q.getD k 0 = p.getD k 0 := by
      intro k hki hkj
      rw [hqdef, hq1]
      simp only [List.getD_eq_getElem?_getD]
      rw [List.getElem?_set_ne (Ne.symm hkj), List.getElem?_set_ne (Ne.symm hki)]
    refine ⟨q, hrun, ?_, ?_, hqj, ?_, ?_, hother⟩
    · rw [hqdef, hq1]
      simp
    · rw [hqi, ha]
    · rw [hqi, ha]
      exact xor_255_ne _
    · rw [hqj]
      exact xor_255_ne _

/-- Witness for C9 at a concrete input: a 10-byte framed packet. -/
theorem inject_crc_error_frame_witness :
    vesc_test_inject_crc_error none 10 = none ∧
    vesc_test_inject_crc_error (some [2, 5, 0, 1, 2, 3, 4, 9, 9, 3]) 5
      = some [2, 5, 0, 1, 2, 3, 4, 9, 9, 3] ∧
    ∃ q, vesc_test_inject_crc_error (some [2, 5, 0, 1, 2, 3, 4, 9, 9, 3]) 10 = some q ∧
        q.length = [2, 5, 0, 1, 2, 3, 4, 9, 9, 3].length ∧
        q.getD ((10 : Int) - 3).toNat 0
          = [2, 5, 0, 1, 2, 3, 4, 9, 9, 3].getD ((10 : Int) - 3).toNat 0 ^^^ 0xFF ∧
        q.getD ((10 : Int) - 2).toNat 0
          = [2, 5, 0, 1, 2, 3, 4, 9, 9, 3].getD ((10 : Int) - 2).toNat 0 ^^^ 0xFF ∧
        q.getD ((10 : Int) - 3).toNat 0 ≠ [2, 5, 0, 1, 2, 3, 4, 9, 9, 3].getD ((10 : Int) - 3).toNat 0 ∧
        q.getD ((10 : Int) - 2).toNat 0 ≠ [2, 5, 0, 1, 2, 3, 4, 9, 9, 3].getD ((10 : Int) - 2).toNat 0 ∧
        (∀ k, k ≠ ((10 : Int) - 3).toNat → k ≠ ((10 : Int) - 2).toNat →
          q.getD k 0 = [2, 5, 0, 1, 2, 3, 4, 9, 9, 3].getD k 0) :=
  ⟨inject_crc_error_frame.1 10,
   inject_crc_error_frame.2.1 [2, 5, 0, 1, 2, 3, 4, 9, 9, 3] 5 (by decide),
   inject_crc_error_frame.2.2 [2, 5, 0, 1, 2, 3, 4, 9, 9, 3] 10 (by decide) (by decide)⟩

/-! ## Packet Codec (spec section 4.2).

The codec itself — packet.c's `packet_process_byte` / `packet_send_packet` —
is not among this repository's sources; only its callers and tests are
(src/ESP32_C6_PROTOCOLCOMPLIANCE tests, src/test_real_integration.c).  It is
therefore modelled from the specification. -/

/-- Modelled from the spec: the parse phases of the per-endpoint receive
state machine of section 4.2 (IDLE → LENGTH → PAYLOAD → CRC_HI → CRC_LO →
END), each carrying the per-frame data the spec assigns to the codec state
(length accumulator, expected length, receive buffer, received CRC). -/
inductive ParsePhase where
  | idle : ParsePhase
  | lenField (bytesLeft : Nat) (acc : Nat) : ParsePhase
  | payloadField (remaining : Nat) (buf : List Nat) : ParsePhase
  | crcHiField (buf : List Nat) : ParsePhase
  | crcLoField (buf : List Nat) (hi : Nat) : ParsePhase
  | endField (buf : List Nat) (crcRx : Nat) : ParsePhase
deriving DecidableEq

/-- Modelled from the spec: `packet_process_byte` (spec 4.2), which is not in
this repository's sources.  In IDLE a marker 0x02/0x03/0x04 selects a 1/2/3
byte big-endian length field and any other byte is discarded; a length
exceeding the maximum payload size `maxPL` rejects the frame back to IDLE;
exactly `length` payload bytes are accumulated (a zero length proceeds
directly to the CRC bytes, as the spec declares zero-length payloads valid);
after the two CRC bytes the end marker 0x03 is expected, and only when it
matches and the CRC-CCITT of the received payload equals the received CRC is
the payload delivered — any mismatch silently drops the frame.  The returned
option is the argument of the single `on_payload` call, if any.  Buffer
capacity needs no separate modelling because lengths above `maxPL` are
already rejected. -/
def packet_process_byte (maxPL : Nat) (st : ParsePhase) (b : Nat) :
    ParsePhase × Option (List Nat) :=
  match st with
  | .idle =>
    if b = 0x02 then (.lenField 1 0, none)
    else if b = 0x03 then (.lenField 2 0, none)
    else if b = 0x04 then (.lenField 3 0, none)
    else (.idle, none)
  | .lenField bytesLeft acc =>
    let acc' := acc * 256 + b
    if bytesLeft ≤ 1 then
      if acc' > maxPL then (.idle, none)
      else if acc' = 0 then (.crcHiField [], none)
      else (.payloadField acc' [], none)
    else (.lenField (bytesLeft - 1) acc', none)
  | .payloadField remaining buf =>
    if remaining ≤ 1 then (.crcHiField (buf ++ [b]), none)
    else (.payloadField (remaining - 1) (buf ++ [b]), none)
  | .crcHiField buf => (.crcLoField buf b, none)
  | .crcLoField buf hi => (.endField buf (hi * 256 + b), none)
  | .endField buf crcRx =>
    if b = 0x03 ∧ crc16 buf buf.length = crcRx then (.idle, some buf)
    else (.idle, none)

/-- Feeding a byte list through the codec from a given state, collecting the
payloads delivered to `on_payload` in order. -/
def packet_feed_bytes (maxPL : Nat) (st : ParsePhase) (bs : List Nat) :
    ParsePhase × List (List Nat) :=
  match bs with
  | [] => (st, [])
  | b :: rest =>
    let step := packet_process_byte maxPL st b
    let next := packet_feed_bytes maxPL step.1 rest
    (next.1, step.2.toList ++ next.2)

/-- Modelled from the spec: `packet_send_packet` — `send(payload)` of spec
sections 4.2 and 6, not in this repository's sources.  Minimal-width start
marker (0x02 with a 1-byte length field for payloads up to 255 bytes, 0x03
with a 2-byte big-endian length field up to 65535 bytes, 0x04 with a 3-byte
field beyond), then the payload, the CRC16 big-endian, and the end marker
0x03.  Payloads longer than the maximum payload size are not sent. -/
def packet_send_packet (maxPL : Nat) (payload : List Nat) : Option (List Nat) :=
  let n := payload.length
  if n > maxPL then none
  else
    let c := crc16 payload (n : Int)
    let header :=
      if n ≤ 0xFF then [0x02, n]
      else if n ≤ 0xFFFF then [0x03, n >>> 8, n % 256]
      else [0x04, n >>> 16, (n >>> 8) % 256, n % 256]
    some (header ++ payload ++ [(c >>> 8) % 256, c % 256, 0x03])

/-! ### Small-step lemmas for the codec -/

theorem feed_nil (m : Nat) (st : ParsePhase) : packet_feed_bytes m st [] = (st, []) := rfl

theorem feed_cons_eq (m : Nat) (st : ParsePhase) (b : Nat) (rest : List Nat) :
    packet_feed_bytes m st (b :: rest) =
      ((packet_feed_bytes m (packet_process_byte m st b).1 rest).1,
        (packet_process_byte m st b).2.toList ++
          (packet_feed_bytes m (packet_process_byte m st b).1 rest).2) := rfl

theorem packet_feed_bytes_append (m : Nat) (st : ParsePhase) (xs ys : List Nat) :
    packet_feed_bytes m st (xs ++ ys) =
      ((packet_feed_bytes m (packet_feed_bytes m st xs).1 ys).1,
        (packet_feed_bytes m st xs).2 ++
          (packet_feed_bytes m (packet_feed_bytes m st xs).1 ys).2) := by
  induction xs generalizing st with
  | nil => simp [packet_feed_bytes]
  | cons b t ih =>
    simp only [List.cons_append, feed_cons_eq]
    rw [ih]
    simp [List.append_assoc]

theorem feed_chain {m : Nat} {st s1 s2 : ParsePhase} {xs ys : List Nat}
    {o1 o2 : List (List Nat)}
    (h1 : packet_feed_bytes m st xs = (s1, o1))
    (h2 : packet_feed_bytes m s1 ys = (s2, o2)) :
    packet_feed_bytes m st (xs ++ ys) = (s2, o1 ++ o2) := by
  rw [packet_feed_bytes_append, h1]
  simp [h2]

theorem feed_cons_of {m : Nat} {st s1 s2 : ParsePhase} {b : Nat} {rest : List Nat}
    {out : Option (List Nat)} {o2 : List (List Nat)}
    (h1 : packet_process_byte m st b = (s1, out))
    (h2 : packet_feed_bytes m s1 rest = (s2, o2)) :
    packet_feed_bytes m st (b :: rest) = (s2, out.toList ++ o2) := by
  rw [feed_cons_eq, h1]
  simp [h2]

theorem step_idle_2 (m : Nat) :
    packet_process_byte m .idle 0x02 = (.lenField 1 0, none) := rfl

theorem step_idle_3 (m : Nat) :
    packet_process_byte m .idle 0x03 = (.lenField 2 0, none) := rfl

theorem step_idle_4 (m : Nat) :
    packet_process_byte m .idle 0x04 = (.lenField 3 0, none) := rfl

theorem step_len_more (m k acc b : Nat) (hk : 2 ≤ k) :
    packet_process_byte m (.lenField k acc) b
      = (.lenField (k - 1) (acc * 256 + b), none) := by
  simp only [packet_process_byte]
  rw [if_neg (by omega)]

theorem step_len_done_pos (m acc b v : Nat) (hv : acc * 256 + b = v)
    (hle : v ≤ m) (hpos : v ≠ 0) :
    packet_process_byte m (.lenField 1 acc) b = (.payloadField v [], none) := by
  subst hv
  simp only [packet_process_byte]
  rw [if_pos (le_refl 1), if_neg (by omega), if_neg hpos]

theorem step_len_done_zero (m acc b : Nat) (hz : acc * 256 + b = 0) :
    packet_process_byte m (.lenField 1 acc) b = (.crcHiField [], none) := by
  simp only [packet_process_byte]
  rw [if_pos (le_refl 1), if_neg (by omega), if_pos hz]

theorem step_crcHi (m : Nat) (buf : List Nat) (b : Nat) :
    packet_process_byte m (.crcHiField buf) b = (.crcLoField buf b, none) := rfl

theorem step_crcLo (m : Nat) (buf : List Nat) (hi b : Nat) :
    packet_process_byte m (.crcLoField buf hi) b
      = (.endField buf (hi * 256 + b), none) := rfl

theorem step_end_ok (m : Nat) (buf : List Nat) (crcRx : Nat)
    (h : crc16 buf buf.length = crcRx) :
    packet_process_byte m (.endField buf crcRx) 0x03 = (.idle, some buf) := by
  simp [packet_process_byte, h]

theorem feed_payload_run (m : Nat) : ∀ (P buf : List Nat), P ≠ [] →
    packet_feed_bytes m (.payloadField P.length buf) P
      = (.crcHiField (buf ++ P), []) := by
  intro P
  induction P with
  | nil => intro buf h; exact absurd rfl h
  | cons b t ih =>
    intro buf _
    rcases ht : t with _ | ⟨x, t'⟩
    · subst ht
      simp [packet_feed_bytes, packet_process_byte]
    · rw [← ht]
      have hne : t ≠ [] := by rw [ht]; simp
      have hstep : packet_process_byte m (.payloadField (b :: t).length buf) b
          = (.payloadField t.length (buf ++ [b]), none) := by
        simp only [packet_process_byte, List.length_cons]
        rw [if_neg (by rw [ht]; simp only [List.length_cons]; omega)]
        simp
      have htail := ih (buf ++ [b]) hne
      have := feed_cons_of hstep htail
      simpa [List.append_assoc] using this

theorem feed_tail_run (m : Nat) (P : List Nat) (hi lo : Nat) (hP : P ≠ []) :
    packet_feed_bytes m (.payloadField P.length []) (P ++ [hi, lo])
      = (.endField P (hi * 256 + lo), []) := by
  have h1 : packet_feed_bytes m (.payloadField P.length []) P
      = (.crcHiField P, []) := by
    simpa using feed_payload_run m P [] hP
  have h2 : packet_feed_bytes m (.crcHiField P) [hi, lo]
      = (.endField P (hi * 256 + lo), []) :=
    feed_cons_of (step_crcHi m P hi) (feed_cons_of (step_crcLo m P hi lo) (feed_nil m _))
  simpa using feed_chain h1 h2

theorem crc16_lt (P : List Nat) (len : Int) : crc16 P len < 65536 := by
  unfold crc16
  exact foldl_crcByte_lt _ 0 (by norm_num)

/-- C4 (spec-modelled): the Packet Codec round trip.  For every payload
within the maximum payload size — the empty payload included — feeding the
bytes produced by `packet_send_packet` into `packet_process_byte` from IDLE
delivers `on_payload` exactly once, with exactly the payload; feeding any
strict prefix of those bytes delivers nothing. -/
theorem packet_roundtrip (maxPL : Nat) (P : List Nat)
    (hle : P.length ≤ maxPL) (hsize : maxPL < 2 ^ 24) :
    ∃ wire, packet_send_packet maxPL P = some wire ∧
      (packet_feed_bytes maxPL .idle wire).2 = [P] ∧
      ∀ pre post, wire = pre ++ post → post ≠ [] →
        (packet_feed_bytes maxPL .idle pre).2 = [] := by
  have hn24 : P.length < 2 ^ 24 := Nat.lt_of_le_of_lt hle hsize
  have hn24' : P.length < 16777216 := by
    have h : (2 : Nat) ^ 24 = 16777216 := by norm_num
    omega
  set c := crc16 P ((P.length : Nat) : Int) with hc
  have hclt : c < 65536 := crc16_lt P _
  have h8c : c >>> 8 = c / 256 := Nat.shiftRight_eq_div_pow c 8
  have hcrcval : ((c >>> 8) % 256) * 256 + c % 256 = c := by omega
  set header := if P.length ≤ 0xFF then [0x02, P.length]
      else if P.length ≤ 0xFFFF then [0x03, P.length >>> 8, P.length % 256]
      else [0x04, P.length >>> 16, (P.length >>> 8) % 256, P.length % 256]
    with hheader
  have hsend : packet_send_packet maxPL P =
      some (header ++ P ++ [(c >>> 8) % 256, c % 256, 0x03]) := by
    simp only [packet_send_packet]
    rw [if_neg (by omega)]
  have hfront : packet_feed_bytes maxPL .idle (header ++ (P ++ [(c >>> 8) % 256, c % 256]))
      = (.endField P c, []) := by
    by_cases h1 : P.length ≤ 255
    · rcases Nat.eq_zero_or_pos P.length with h0 | hpos
      · -- empty payload: [0x02, 0] then straight to the CRC bytes
        have hP0 : P = [] := List.length_eq_zero.mp h0
        have hchain := feed_cons_of (step_idle_2 maxPL)
          (feed_cons_of (step_len_done_zero maxPL 0 P.length (by omega))
            (feed_cons_of (step_crcHi maxPL [] ((c >>> 8) % 256))
              (feed_cons_of (step_crcLo maxPL [] ((c >>> 8) % 256) (c % 256))
                (feed_nil maxPL _))))
        rw [hheader, if_pos h1]
        subst hP0
        simpa [hcrcval] using hchain
      · have hPne : P ≠ [] := by
          intro h
          rw [h] at hpos
          simp at hpos
        have hchain := feed_cons_of (step_idle_2 maxPL)
          (feed_cons_of
            (step_len_done_pos maxPL 0 P.length P.length (by omega) hle (by omega))
            (feed_tail_run maxPL P ((c >>> 8) % 256) (c % 256) hPne))
        rw [hheader, if_pos h1]
        simpa [hcrcval] using hchain
    · have hPne : P ≠ [] := by
        intro h
        rw [h] at h1
        simp at h1
      by_cases h2 : P.length ≤ 65535
      · have h8 : P.length >>> 8 = P.length / 256 := Nat.shiftRight_eq_div_pow P.length 8
        have hacc : (0 * 256 + P.length >>> 8) * 256 + P.length % 256 = P.length := by
          omega
        have hchain := feed_cons_of (step_idle_3 maxPL)
          (feed_cons_of (step_len_more maxPL 2 0 (P.length >>> 8) (by omega))
            (feed_cons_of
              (step_len_done_pos maxPL (0 * 256 + P.length >>> 8) (P.length % 256)
                P.length hacc hle (by omega))
              (feed_tail_run maxPL P ((c >>> 8) % 256) (c % 256) hPne)))
        rw [hheader, if_neg h1, if_pos h2]
        simpa [hcrcval] using hchain
      · have h16 : P.length >>> 16 = P.length / 65536 := Nat.shiftRight_eq_div_pow P.length 16
        have h8 : P.length >>> 8 = P.length / 256 := Nat.shiftRight_eq_div_pow P.length 8
        have hacc : ((0 * 256 + P.length >>> 16) * 256 + (P.length >>> 8) % 256) * 256
            + P.length % 256 = P.length := by
          omega
        have hchain := feed_cons_of (step_idle_4 maxPL)
          (feed_cons_of (step_len_more maxPL 3 0 (P.length >>> 16) (by omega))
            (feed_cons_of
              (step_len_more maxPL 2 (0 * 256 + P.length >>> 16) ((P.length >>> 8) % 256)
                (by omega))
              (feed_cons_of
                (step_len_done_pos maxPL
                  ((0 * 256 + P.length >>> 16) * 256 + (P.length >>> 8) % 256)
                  (P.length % 256) P.length hacc hle (by omega))
                (feed_tail_run maxPL P ((c >>> 8) % 256) (c % 256) hPne))))
        rw [hheader, if_neg h1, if_neg h2]
        simpa [hcrcval] using hchain
  have hend : packet_feed_bytes maxPL (.endField P c) [0x03] = (.idle, [P]) :=
    feed_cons_of (step_end_ok maxPL P c rfl) (feed_nil maxPL _)
  have hwireeq : header ++ P ++ [(c >>> 8) % 256, c % 256, 0x03]
      = (header ++ (P ++ [(c >>> 8) % 256, c % 256])) ++ [0x03] := by
    simp
  refine ⟨header ++ P ++ [(c >>> 8) % 256, c % 256, 0x03], hsend, ?_, ?_⟩
  · rw [hwireeq, feed_chain hfront hend]
    rfl
  · intro pre post hsplit hpost
    have hfronteq : pre ++ post.dropLast
        = header ++ (P ++ [(c >>> 8) % 256, c % 256]) := by
      have hd1 : (pre ++ post).dropLast = pre ++ post.dropLast :=
        List.dropLast_append_of_ne_nil pre hpost
      have hd2 : (header ++ P ++ [(c >>> 8) % 256, c % 256, 0x03]).dropLast
          = header ++ (P ++ [(c >>> 8) % 256, c % 256]) := by
        rw [hwireeq]
        exact List.dropLast_concat
      rw [← hd1, ← hsplit]
      exact hd2
    have hcomp := packet_feed_bytes_append maxPL .idle pre post.dropLast
    rw [hfronteq, hfront] at hcomp
    have hnil : (packet_feed_bytes maxPL ParsePhase.idle pre).2 ++
        (packet_feed_bytes maxPL
          (packet_feed_bytes maxPL ParsePhase.idle pre).1 post.dropLast).2 = [] := by
      have := congrArg Prod.snd hcomp
      simpa using this.symm
    exact (List.append_eq_nil.mp hnil).1

/-- Witness for C4: round trip of the payload [1, 2, 3] with maximum payload
size 512. -/
theorem packet_roundtrip_witness :
    ∃ wire, packet_send_packet 512 [1, 2, 3] = some wire ∧
      (packet_feed_bytes 512 .idle wire).2 = [[1, 2, 3]] ∧
      ∀ pre post, wire = pre ++ post → post ≠ [] →
        (packet_feed_bytes 512 .idle pre).2 = [] :=
  packet_roundtrip 512 [1, 2, 3] (by norm_num) (by norm_num)

/-- C3 (spec-modelled): minimal-width start marker for large payloads.  Every
payload longer than 255 bytes (and within the maximum payload size) is
serialized with start marker 0x03 and a 2-byte big-endian length field when
the length fits 16 bits, or with marker 0x04 and a 3-byte field when larger —
never with the 1-byte-length marker 0x02. -/
theorem send_packet_minimal_marker (maxPL : Nat) (P : List Nat)
    (h255 : 255 < P.length) (hle : P.length ≤ maxPL) :
    ∃ wire, packet_send_packet maxPL P = some wire ∧
      wire.getD 0 0 ≠ 0x02 ∧
      (P.length ≤ 0xFFFF → wire.take 3 = [0x03, P.length >>> 8, P.length % 256]) ∧
      (0xFFFF < P.length →
        wire.take 4 = [0x04, P.length >>> 16, (P.length >>> 8) % 256, P.length % 256]) := by
  by_cases h2 : P.length ≤ 0xFFFF
  · refine ⟨[0x03, P.length >>> 8, P.length % 256] ++ P ++
      [(crc16 P ((P.length : Nat) : Int) >>> 8) % 256,
        crc16 P ((P.length : Nat) : Int) % 256, 0x03], ?_, ?_, ?_, ?_⟩
    · simp only [packet_send_packet]
      rw [if_neg (by omega), if_neg (by omega : ¬ P.length ≤ 0xFF), if_pos h2]
    · have h0 : ([0x03, P.length >>> 8, P.length % 256] ++ P ++
          [(crc16 P ((P.length : Nat) : Int) >>> 8) % 256,
            crc16 P ((P.length : Nat) : Int) % 256, 0x03]).getD 0 0 = 3 := rfl
      rw [h0]
      omega
    · intro _
      rw [List.append_assoc]
      exact List.take_left' (by simp)
    · intro h
      exact absurd h (by omega)
  · refine ⟨[0x04, P.length >>> 16, (P.length >>> 8) % 256, P.length % 256] ++ P ++
      [(crc16 P ((P.length : Nat) : Int) >>> 8) % 256,
        crc16 P ((P.length : Nat) : Int) % 256, 0x03], ?_, ?_, ?_, ?_⟩
    · simp only [packet_send_packet]
      rw [if_neg (by omega), if_neg (by omega : ¬ P.length ≤ 0xFF), if_neg h2]
    · have h0 : ([0x04, P.length >>> 16, (P.length >>> 8) % 256, P.length % 256] ++ P ++
          [(crc16 P ((P.length : Nat) : Int) >>> 8) % 256,
            crc16 P ((P.length : Nat) : Int) % 256, 0x03]).getD 0 0 = 4 := rfl
      rw [h0]
      omega
    · intro h
      exact absurd h h2
    · intro _
      rw [List.append_assoc]
      exact List.take_left' (by simp)

/-- Witness for C3: a 300-byte payload is framed with marker 0x03 and a
2-byte length field. -/
theorem send_packet_minimal_marker_witness :
    ∃ wire, packet_send_packet 1000 (List.replicate 300 7) = some wire ∧
      wire.getD 0 0 ≠ 0x02 ∧
      ((List.replicate 300 7).length ≤ 0xFFFF →
        wire.take 3 = [0x03, (List.replicate 300 7).length >>> 8,
          (List.replicate 300 7).length % 256]) ∧
      (0xFFFF < (List.replicate 300 7).length →
        wire.take 4 = [0x04, (List.replicate 300 7).length >>> 16,
          ((List.replicate 300 7).length >>> 8) % 256,
          (List.replicate 300 7).length % 256]) :=
  send_packet_minimal_marker 1000 (List.replicate 300 7) (by simp) (by simp)

/-! ## CAN Transport Adapter send path (spec section 4.3).

`comm_can_send_buffer` is not among this repository's sources; only tests
that recompute its expected fragmentation are (src/test_can_interface.c,
src/test_protocol_bridge.c).  It is modelled from the specification: one
PROCESS_SHORT_BUFFER frame for payloads of at most 6 bytes, otherwise
FILL_RX_BUFFER frames — a 1-byte running offset plus up to 7 payload bytes
while the offset is below 255, a 2-byte offset plus up to 6 payload bytes
from then on — followed by one PROCESS_RX_BUFFER commit frame carrying the
total length. -/

/-- A bus frame: identifier plus up to eight data bytes. -/
structure CanFrame where
  id : Nat
  data : List Nat
deriving DecidableEq

/-- Modelled from the spec: the FILL-frame chunking loop of `send_buffer`.
`fuel` bounds the number of frames still to emit; `can_fill_frames` below
instantiates it with the remaining byte count, which suffices because every
frame consumes at least one byte. -/
def can_fill_go (target : Nat) : Nat → Nat → List Nat → List CanFrame
  | 0, _, _ => []
  | _ + 1, _, [] => []
  | fuel + 1, offset, b :: t =>
    if offset < 255 then
      ⟨vesc_test_create_can_id target VESC_CAN_PACKET_FILL_RX_BUFFER,
        offset :: (b :: t).take 7⟩ ::
        can_fill_go target fuel (offset + 7) ((b :: t).drop 7)
    else
      ⟨vesc_test_create_can_id target VESC_CAN_PACKET_FILL_RX_BUFFER,
        (offset >>> 8) :: offset % 256 :: (b :: t).take 6⟩ ::
        can_fill_go target fuel (offset + 6) ((b :: t).drop 6)

/-- The FILL frames emitted for the remaining bytes `rest` from a running
offset. -/
def can_fill_frames (target offset : Nat) (rest : List Nat) : List CanFrame :=
  can_fill_go target rest.length offset rest

/-- Modelled from the spec: `comm_can_send_buffer` (spec 4.3, not in this
repository's sources).  A payload of at most 6 bytes is delivered in a
single PROCESS_SHORT_BUFFER frame carrying [sender, send-mode 0, payload]
(the layout the bridge test expects); a larger payload is split into
FILL_RX_BUFFER frames followed by exactly one PROCESS_RX_BUFFER commit
frame carrying the sender, the send mode and the total expected length
big-endian. -/
def comm_can_send_buffer (sender target : Nat) (payload : List Nat) :
    List CanFrame :=
  if payload.length ≤ 6 then
    [⟨vesc_test_create_can_id target VESC_CAN_PACKET_PROCESS_SHORT_BUFFER,
      sender :: 0 :: payload⟩]
  else
    can_fill_frames target 0 payload ++
      [⟨vesc_test_create_can_id target VESC_CAN_PACKET_PROCESS_RX_BUFFER,
        [sender, 0, payload.length >>> 8, payload.length % 256]⟩]

theorem can_fill_go_fuel (target : Nat) : ∀ (fuel1 fuel2 offset : Nat) (rest : List Nat),
    rest.length ≤ fuel1 → rest.length ≤ fuel2 →
    can_fill_go target fuel1 offset rest = can_fill_go target fuel2 offset rest := by
  intro fuel1
  induction fuel1 with
  | zero =>
    intro fuel2 offset rest h1 _
    have : rest = [] := List.eq_nil_of_length_eq_zero (by omega)
    subst this
    cases fuel2 <;> rfl
  | succ f ih =>
    intro fuel2 offset rest h1 h2
    rcases rest with _ | ⟨b, t⟩
    · cases fuel2 <;> rfl
    · rcases fuel2 with _ | f2
      · simp at h2
      · simp only [can_fill_go]
        have hd7 : ((b :: t).drop 7).length ≤ f ∧ ((b :: t).drop 7).length ≤ f2 := by
          simp only [List.length_drop, List.length_cons] at *
          omega
        have hd6 : ((b :: t).drop 6).length ≤ f ∧ ((b :: t).drop 6).length ≤ f2 := by
          simp only [List.length_drop, List.length_cons] at *
          omega
        rw [ih f2 (offset + 7) ((b :: t).drop 7) hd7.1 hd7.2,
          ih f2 (offset + 6) ((b :: t).drop 6) hd6.1 hd6.2]

theorem can_fill_frames_cons (target offset : Nat) (b : Nat) (t : List Nat) :
    can_fill_frames target offset (b :: t) =
      if offset < 255 then
        ⟨vesc_test_create_can_id target VESC_CAN_PACKET_FILL_RX_BUFFER,
          offset :: (b :: t).take 7⟩ ::
          can_fill_frames target (offset + 7) ((b :: t).drop 7)
      else
        ⟨vesc_test_create_can_id target VESC_CAN_PACKET_FILL_RX_BUFFER,
          (offset >>> 8) :: offset % 256 :: (b :: t).take 6⟩ ::
          can_fill_frames target (offset + 6) ((b :: t).drop 6) := by
  show can_fill_go target (t.length + 1) offset (b :: t) = _
  simp only [can_fill_go]
  rw [can_fill_go_fuel target t.length ((b :: t).drop 7).length (offset + 7) ((b :: t).drop 7)
      (by simp only [List.length_drop, List.length_cons]; omega) (le_refl _),
    can_fill_go_fuel target t.length ((b :: t).drop 6).length (offset + 6) ((b :: t).drop 6)
      (by simp only [List.length_drop, List.length_cons]; omega) (le_refl _)]
  rfl

theorem can_fill_go_ids (target : Nat) : ∀ (fuel offset : Nat) (rest : List Nat),
    ∀ f ∈ can_fill_go target fuel offset rest,
      f.id = vesc_test_create_can_id target VESC_CAN_PACKET_FILL_RX_BUFFER := by
  intro fuel
  induction fuel with
  | zero => intro offset rest f hf; simp [can_fill_go] at hf
  | succ fuel ih =>
    intro offset rest f hf
    rcases rest with _ | ⟨b, t⟩
    · simp [can_fill_go] at hf
    · simp only [can_fill_go] at hf
      split at hf
      all_goals
        simp only [List.mem_cons] at hf
        rcases hf with rfl | hf
        · rfl
        · exact ih _ _ f hf

/-- C5 (amended — each FILL frame carries *up to* its bracket size: the take
of 7 payload bytes below offset 255 and of 6 at or beyond, so the final FILL
frame carries just the remainder; the literal "carries 7 payload bytes"
fails on that final frame, see the counterexample theorem): a payload of at
most 6 bytes gives exactly one SHORT_BUFFER frame carrying it; a longer
payload gives FILL frames followed by exactly one COMMIT frame; and the
50-byte payload produces exactly 8 FILL frames followed by exactly one
COMMIT frame. -/
theorem send_buffer_spec :
    (∀ (sender target : Nat) (payload : List Nat), payload.length ≤ 6 →
      comm_can_send_buffer sender target payload =
        [⟨vesc_test_create_can_id target VESC_CAN_PACKET_PROCESS_SHORT_BUFFER,
          sender :: 0 :: payload⟩]) ∧
    (∀ (sender target : Nat) (payload : List Nat), 6 < payload.length →
      comm_can_send_buffer sender target payload =
        can_fill_frames target 0 payload ++
          [⟨vesc_test_create_can_id target VESC_CAN_PACKET_PROCESS_RX_BUFFER,
            [sender, 0, payload.length >>> 8, payload.length % 256]⟩] ∧
        can_fill_frames target 0 payload ≠ [] ∧
        ∀ f ∈ can_fill_frames target 0 payload,
          f.id = vesc_test_create_can_id target VESC_CAN_PACKET_FILL_RX_BUFFER) ∧
    (∀ (target offset : Nat) (rest : List Nat), rest ≠ [] →
      (offset < 255 →
        can_fill_frames target offset rest =
          ⟨vesc_test_create_can_id target VESC_CAN_PACKET_FILL_RX_BUFFER,
            offset :: rest.take 7⟩ ::
            can_fill_frames target (offset + 7) (rest.drop 7)) ∧
      (255 ≤ offset →
        can_fill_frames target offset rest =
          ⟨vesc_test_create_can_id target VESC_CAN_PACKET_FILL_RX_BUFFER,
            (offset >>> 8) :: offset % 256 :: rest.take 6⟩ ::
            can_fill_frames target (offset + 6) (rest.drop 6))) ∧
    (comm_can_send_buffer 0 1 (List.range 50)).map CanFrame.id
      = List.replicate 8 (vesc_test_create_can_id 1 VESC_CAN_PACKET_FILL_RX_BUFFER)
        ++ [vesc_test_create_can_id 1 VESC_CAN_PACKET_PROCESS_RX_BUFFER] := by
  refine ⟨?_, ?_, ?_, ?_⟩
  · intro sender target payload h
    simp only [comm_can_send_buffer]
    rw [if_pos h]
  · intro sender target payload h
    refine ⟨?_, ?_, fun f hf => can_fill_go_ids target payload.length 0 payload f hf⟩
    · simp only [comm_can_send_buffer]
      rw [if_neg (by omega)]
    · rcases payload with _ | ⟨b, t⟩
      · simp at h
      · rw [can_fill_frames_cons]
        split <;> simp
  · intro target offset rest hne
    rcases rest with _ | ⟨b, t⟩
    · exact absurd rfl hne
    · constructor
      · intro hoff
        rw [can_fill_frames_cons, if_pos hoff]
      · intro hoff
        rw [can_fill_frames_cons, if_neg (by omega)]
  · decide

/-- Counterexample to C5 as stated: for the 50-byte payload the claimed count
(exactly 8 FILL + 1 COMMIT) forces the final FILL frame — at offset 49,
below 255 — to carry a single payload byte (its data is [49, 49]: one offset
byte plus one payload byte), not 7 payload bytes. -/
theorem send_buffer_last_fill_partial :
    ((comm_can_send_buffer 0 1 (List.range 50)).getD 7 ⟨0, []⟩).id
      = vesc_test_create_can_id 1 VESC_CAN_PACKET_FILL_RX_BUFFER ∧
    ((comm_can_send_buffer 0 1 (List.range 50)).getD 7 ⟨0, []⟩).data = [49, 49] ∧
    ((comm_can_send_buffer 0 1 (List.range 50)).getD 7 ⟨0, []⟩).data.length ≠ 1 + 7 := by
  refine ⟨?_, ?_, ?_⟩ <;> decide

/-- Witness for C5: a 3-byte payload (short path), a 10-byte payload (FILL +
COMMIT path), one FILL step below offset 255 and one at offset 255. -/
theorem send_buffer_spec_witness :
    comm_can_send_buffer 0 1 [1, 2, 3] =
      [⟨vesc_test_create_can_id 1 VESC_CAN_PACKET_PROCESS_SHORT_BUFFER,
        0 :: 0 :: [1, 2, 3]⟩] ∧
    (comm_can_send_buffer 2 3 (List.range 10) =
        can_fill_frames 3 0 (List.range 10) ++
          [⟨vesc_test_create_can_id 3 VESC_CAN_PACKET_PROCESS_RX_BUFFER,
            [2, 0, (List.range 10).length >>> 8, (List.range 10).length % 256]⟩] ∧
      can_fill_frames 3 0 (List.range 10) ≠ [] ∧
      ∀ f ∈ can_fill_frames 3 0 (List.range 10),
        f.id = vesc_test_create_can_id 3 VESC_CAN_PACKET_FILL_RX_BUFFER) ∧
    (can_fill_frames 1 0 [9, 9, 9, 9, 9, 9, 9, 9] =
      ⟨vesc_test_create_can_id 1 VESC_CAN_PACKET_FILL_RX_BUFFER,
        0 :: [9, 9, 9, 9, 9, 9, 9, 9].take 7⟩ ::
        can_fill_frames 1 (0 + 7) ([9, 9, 9, 9, 9, 9, 9, 9].drop 7)) ∧
    (can_fill_frames 1 255 [8, 8, 8, 8, 8, 8, 8] =
      ⟨vesc_test_create_can_id 1 VESC_CAN_PACKET_FILL_RX_BUFFER,
        (255 >>> 8) :: 255 % 256 :: [8, 8, 8, 8, 8, 8, 8].take 6⟩ ::
        can_fill_frames 1 (255 + 6) ([8, 8, 8, 8, 8, 8, 8].drop 6)) :=
  ⟨send_buffer_spec.1 0 1 [1, 2, 3] (by norm_num),
   send_buffer_spec.2.1 2 3 (List.range 10) (by simp),
   (send_buffer_spec.2.2.1 1 0 [9, 9, 9, 9, 9, 9, 9, 9] (by simp)).1 (by norm_num),
   (send_buffer_spec.2.2.1 1 255 [8, 8, 8, 8, 8, 8, 8] (by simp)).2 (by norm_num)⟩
